import Mathlib

set_option maxHeartbeats 1000000

/-!
Shallow embedding of the `envvar` package (a Go fork of the standard `flag`
package adapted to environment variables), together with proofs about the
claims of its specification.

Conventions of the embedding:
* Go strings are modelled by `String` / `List Char`.  Every character the
  algorithms branch on is ASCII, where byte-wise and character-wise processing
  coincide (UTF-8 byte order also agrees with codepoint order, so the
  lexicographic orderings coincide as well).
* Machine integers are modelled by `Nat` / `Int`, with an explicit `% 2 ^ 64`
  wherever the Go code relies on `uint64` wrap-around.
* Go maps are modelled by association lists with unique keys; map reads on a
  `nil` map equal reads on an empty map, so `nil` and empty are identified.
* The mutable pointee of a `Value` (the native storage slot) lives in an
  explicit heap (`List V`); an `EnvVar` record stores the pointer as an index
  into that heap, which models the aliasing of records between the `formal`
  and `actual` maps.
* Functions that print to the output sink instead append the printed line to
  an `output : List String` field.
* `panic` / `os.Exit` are modelled by dedicated result constructors.
-/

/-- The base error values of Go's `strconv` package: `ErrSyntax`, `ErrRange`,
and the ad-hoc "invalid base b" error of `ParseUint`. -/
inductive StrconvErr where
  | syn : StrconvErr
  | range : StrconvErr
  | badBase (base : Nat) : StrconvErr
deriving DecidableEq, Repr

/-- A Go `error` value as it occurs in this package: either a
`*strconv.NumError` (function name, offending numeral, base error) or a plain
formatted error string produced by `fmt.Errorf`. -/
inductive GoErr where
  | num (fn : String) (numStr : String) (e : StrconvErr) : GoErr
  | msg (s : String) : GoErr
deriving DecidableEq, Repr

/-- Models `strconv.Quote` for the argument strings arising in this package:
printable ASCII is kept verbatim between double quotes and the common escapes
are produced.  (The exotic `\x`/`\u` escapes of `strconv.Quote` are not needed
by any theorem below; no theorem depends on quoted text beyond plain
printable ASCII, where this function agrees with Go exactly.) -/
def goQuoteChar (c : Char) : String :=
  if c = '"' then "\\\""
  else if c = '\\' then "\\\\"
  else if c = '\n' then "\\n"
  else if c = '\t' then "\\t"
  else if c = '\r' then "\\r"
  else String.singleton c

/-- See `goQuoteChar`. -/
def goQuote (s : String) : String :=
  "\"" ++ String.join (s.data.map goQuoteChar) ++ "\""

/-- `strconv.ErrSyntax.Error()` / `strconv.ErrRange.Error()` texts. -/
def StrconvErr.errorString : StrconvErr → String
  | .syn => "invalid syntax"
  | .range => "value out of range"
  | .badBase b => "invalid base " ++ toString b

/-- `(*strconv.NumError).Error()` and the identity on plain error strings:
how an error renders through `fmt`'s `%v` verb. -/
def GoErr.render : GoErr → String
  | .num fn numStr e => "strconv." ++ fn ++ ": parsing " ++ goQuote numStr ++ ": " ++ e.errorString
  | .msg s => s

/-- `maxUint64` of Go's `strconv`. -/
def maxUint64 : Nat := 2 ^ 64 - 1

/-- The digit classification of the conversion loop in `strconv.ParseUint`
(Go 1.9, the stdlib generation this repository was written against):
`'0'-'9'`, `'a'-'z'`, `'A'-'Z'` are digit characters, everything else is a
syntax error. -/
def digitVal (d : Char) : Option Nat :=
  if '0'.toNat ≤ d.toNat ∧ d.toNat ≤ '9'.toNat then some (d.toNat - '0'.toNat)
  else if 'a'.toNat ≤ d.toNat ∧ d.toNat ≤ 'z'.toNat then some (d.toNat - 'a'.toNat + 10)
  else if 'A'.toNat ≤ d.toNat ∧ d.toNat ≤ 'Z'.toNat then some (d.toNat - 'A'.toNat + 10)
  else none

/-- The digit-accumulation loop of `strconv.ParseUint` (Go 1.9).  `n` is the
`uint64` accumulator (arithmetic is explicitly reduced `% 2 ^ 64`); on a bad
digit it returns `(0, ErrSyntax)`; if `n ≥ cutoff` the multiplication would
overflow and it returns `(maxUint64, ErrRange)`; if the post-add value wraps
or exceeds `maxVal` it returns `(maxVal, ErrRange)`. -/
def puLoop (base cutoff maxVal : Nat) : List Char → Nat → Nat × Option StrconvErr
  | [], n => (n, none)
  | d :: ds, n =>
    match digitVal d with
    | none => (0, some StrconvErr.syn)
    | some v =>
      if base ≤ v then (0, some StrconvErr.syn)
      else if cutoff ≤ n then (maxUint64, some StrconvErr.range)
      else if (n * base % 2 ^ 64 + v) % 2 ^ 64 < n * base % 2 ^ 64 ∨
              maxVal < (n * base % 2 ^ 64 + v) % 2 ^ 64 then
        (maxVal, some StrconvErr.range)
      else puLoop base cutoff maxVal ds ((n * base % 2 ^ 64 + v) % 2 ^ 64)

/-- The tail of `strconv.ParseUint` (Go 1.9) once the base `b` and the digit
substring are known: run the conversion loop from `n = 0` with
`cutoff = maxUint64/base + 1` and `maxVal` fixed, wrapping any loop error in
a `NumError` carrying the full original input `s`. -/
def runPU (s : String) (maxVal b : Nat) (digits : List Char) : Nat × Option GoErr :=
  match puLoop b (maxUint64 / b + 1) maxVal digits 0 with
  | (n, none) => (n, none)
  | (n, some e) => (n, some (GoErr.num "ParseUint" s e))

/-- `strconv.ParseUint(s, base, bitSize)` (Go 1.9).  `intSize` is the
platform constant `strconv.IntSize`, substituted when `bitSize = 0`.
Base 0 selects the base from the literal prefix: `0x`/`0X` is hex, a leading
`0` is octal, otherwise decimal.  Errors are wrapped in a `NumError` whose
function name is `"ParseUint"` and whose numeral is the full input. -/
def ParseUint (intSize : Nat) (s : String) (base bitSize : Nat) : Nat × Option GoErr :=
  let bs := if bitSize = 0 then intSize else bitSize
  if s.data.length < 1 then (0, some (GoErr.num "ParseUint" s StrconvErr.syn))
  else if 2 ≤ base ∧ base ≤ 36 then runPU s (2 ^ bs - 1) base s.data
  else if base = 0 then
    match s.data with
    | [] => (0, some (GoErr.num "ParseUint" s StrconvErr.syn))
    | c0 :: rest0 =>
      if c0 = '0' then
        match rest0 with
        | [] => runPU s (2 ^ bs - 1) 8 []
        | c1 :: rest1 =>
          if c1 = 'x' ∨ c1 = 'X' then
            if s.data.length < 3 then (0, some (GoErr.num "ParseUint" s StrconvErr.syn))
            else runPU s (2 ^ bs - 1) 16 rest1
          else runPU s (2 ^ bs - 1) 8 (c1 :: rest1)
      else runPU s (2 ^ bs - 1) 10 s.data
  else (0, some (GoErr.num "ParseUint" s (StrconvErr.badBase base)))

/-- The tail of `strconv.ParseInt` (Go 1.9): the signed range check against
`cutoff = 2 ^ (bs - 1)` and the final sign application, `bs` being the
resolved bit size.  Go computes `-n` on an `int64`; for `un = cutoff` in the
negative case the two's-complement result is exactly `-cutoff`, which the
`Int` expression below also yields. -/
def piFinish (s : String) (neg : Prop) [Decidable neg] (bs un : Nat) : Int × Option GoErr :=
  if ¬neg ∧ 2 ^ (bs - 1) ≤ un then
    ((2 ^ (bs - 1) : Nat) - 1, some (GoErr.num "ParseInt" s StrconvErr.range))
  else if neg ∧ 2 ^ (bs - 1) < un then
    (-((2 ^ (bs - 1) : Nat) : Int), some (GoErr.num "ParseInt" s StrconvErr.range))
  else ((if neg then -(un : Int) else (un : Int)), none)

/-- `strconv.ParseInt(s, base, bitSize)` (Go 1.9): empty input is a syntax
error; otherwise pick off a leading sign (`neg` records a leading `'-'`),
convert the rest through `ParseUint(·, base, 64)`, pass a range error through
to the signed range check (`piFinish`), and re-wrap any other error with
function name `"ParseInt"` and the full input. -/
def ParseInt (intSize : Nat) (s : String) (base bitSize : Nat) : Int × Option GoErr :=
  match s.data with
  | [] => (0, some (GoErr.num "ParseInt" s StrconvErr.syn))
  | c :: rest =>
    match ParseUint intSize (String.mk (if c = '+' ∨ c = '-' then rest else c :: rest)) base 64 with
    | (un, none) => piFinish s (c = '-') (if bitSize = 0 then intSize else bitSize) un
    | (un, some (GoErr.num _ _ e)) =>
      if e = StrconvErr.range then
        piFinish s (c = '-') (if bitSize = 0 then intSize else bitSize) un
      else (0, some (GoErr.num "ParseInt" s e))
    | (_, some (GoErr.msg m)) => (0, some (GoErr.msg m))

/-- `strconv.ParseBool`: exactly twelve accepted tokens, everything else is a
syntax error (with the partial result `false`). -/
def ParseBool (str : String) : Bool × Option GoErr :=
  if str = "1" ∨ str = "t" ∨ str = "T" ∨ str = "true" ∨ str = "TRUE" ∨ str = "True" then
    (true, none)
  else if str = "0" ∨ str = "f" ∨ str = "F" ∨ str = "false" ∨ str = "FALSE" ∨ str = "False" then
    (false, none)
  else (false, some (GoErr.num "ParseBool" str StrconvErr.syn))

/-- `boolValue.Set`: `v, err := strconv.ParseBool(s); *b = boolValue(v); return err`.
The first component is the new content of the bound storage slot (written
unconditionally, so the prior content `b` is always overwritten). -/
def boolValueSet (b : Bool) (s : String) : Bool × Option GoErr := ParseBool s

/-- `intValue.Set`: `v, err := strconv.ParseInt(s, 0, strconv.IntSize); *i = intValue(v); return err`. -/
def intValueSet (intSize : Nat) (i : Int) (s : String) : Int × Option GoErr :=
  ParseInt intSize s 0 intSize

/-- `int64Value.Set`: `v, err := strconv.ParseInt(s, 0, 64); *i = int64Value(v); return err`. -/
def int64ValueSet (intSize : Nat) (i : Int) (s : String) : Int × Option GoErr :=
  ParseInt intSize s 0 64

/-- `uintValue.Set`: `v, err := strconv.ParseUint(s, 0, strconv.IntSize); *i = uintValue(v); return err`. -/
def uintValueSet (intSize : Nat) (i : Nat) (s : String) : Nat × Option GoErr :=
  ParseUint intSize s 0 intSize

/-- `uint64Value.Set`: `v, err := strconv.ParseUint(s, 0, 64); *i = uint64Value(v); return err`. -/
def uint64ValueSet (intSize : Nat) (i : Nat) (s : String) : Nat × Option GoErr :=
  ParseUint intSize s 0 64

/-- `stringValue.Set`: `*s = stringValue(val); return nil`. -/
def stringValueSet (s : String) (val : String) : String × Option GoErr := (val, none)

/-- `ErrorHandling` of `envvar`: `ContinueOnError`, `ExitOnError`, `PanicOnError`. -/
inductive ErrorHandling where
  | ContinueOnError : ErrorHandling
  | ExitOnError : ErrorHandling
  | PanicOnError : ErrorHandling
deriving DecidableEq, Repr

/-- An `EnvVar` record `{Name, Value}`.  The `Value` interface value is a
pointer into the heap of native storage slots, modelled by its index `ref`. -/
structure EnvVar where
  Name : String
  ref : Nat
deriving DecidableEq, Repr

/-- An `EnvVarSet`, plus the ambient mutable state it works on: `output`
collects the lines printed to the output sink, `heap` holds the pointees of
the registered `Value`s.  The type `V` of the slots and the `Set` method of
the `Value`s are parameters of the operations below, which models the dynamic
dispatch of the Go `Value` interface. -/
structure EnvVarSet (V : Type) where
  name : String
  parsed : Bool
  actual : List (String × EnvVar)
  formal : List (String × EnvVar)
  errorHandling : ErrorHandling
  output : List String
  heap : List V
deriving DecidableEq, Repr

/-- Go map read `m[k]`: the (unique) binding of `k`, if present. -/
def mapLookup {α : Type} (m : List (String × α)) (k : String) : Option α :=
  match m with
  | [] => none
  | (k', v) :: rest => if k' = k then some v else mapLookup rest k

/-- Go map write `m[k] = v`: replace the binding of `k` if present, else
append one (a `nil` map is the empty list, so initialization is a no-op). -/
def mapInsert {α : Type} (m : List (String × α)) (k : String) (v : α) : List (String × α) :=
  match m with
  | [] => [(k, v)]
  | (k', v') :: rest => if k' = k then (k, v) :: rest else (k', v') :: mapInsert rest k v

/-- `NewEnvVarSet(name, errorHandling)` (with an initially empty heap). -/
def NewEnvVarSet (V : Type) (name : String) (errorHandling : ErrorHandling) : EnvVarSet V :=
  { name := name, parsed := false, actual := [], formal := [],
    errorHandling := errorHandling, output := [], heap := [] }

/-- Result of `EnvVarSet.Var`: normal return, or a `panic` after printing
`msg` to the output sink (the carried set is the state at the panic). -/
inductive VarResult (V : Type) where
  | ok (evs : EnvVarSet V) : VarResult V
  | panicked (evs : EnvVarSet V) (msg : String) : VarResult V
deriving DecidableEq, Repr

/-- `EnvVarSet.Var(value, name)`: register `&EnvVar{name, value}` in `formal`;
if `name` is already registered, print the redefinition message (prefixed with
the set's name when it has one) and panic with that message.  `r` is the
`Value` argument, i.e. the pointer to the native slot. -/
def EnvVarSet.Var {V : Type} (evs : EnvVarSet V) (r : Nat) (name : String) : VarResult V :=
  let envVar : EnvVar := ⟨name, r⟩
  match mapLookup evs.formal name with
  | some _ =>
    let msg := if evs.name = "" then "EnvVar redefined: " ++ name
               else evs.name ++ " sets EnvVar redefined: " ++ name
    .panicked { evs with output := evs.output ++ [msg] } msg
  | none => .ok { evs with formal := mapInsert evs.formal name envVar }

/-- `EnvVarSet.Set(name, value)`: unknown names give the
"no such environment variable" error; otherwise the record's `Value.Set`
runs (always rewriting the slot with its first component) and its error is
propagated unchanged; on success the record is inserted into `actual`.
`vset` is the `Value.Set` method of the registered values. -/
def EnvVarSet.Set {V : Type} [Inhabited V] (vset : V → String → V × Option GoErr)
    (evs : EnvVarSet V) (name value : String) : EnvVarSet V × Option GoErr :=
  match mapLookup evs.formal name with
  | none => (evs, some (GoErr.msg ("no such environment variable " ++ name)))
  | some envVar =>
    match vset (evs.heap.getD envVar.ref default) value with
    | (st, some e) => ({ evs with heap := evs.heap.set envVar.ref st }, some e)
    | (st, none) =>
      ({ evs with heap := evs.heap.set envVar.ref st,
                  actual := mapInsert evs.actual name envVar }, none)

/-- `EnvVarSet.failf`: format an error, print it to the output sink, and
return it. -/
def EnvVarSet.failf {V : Type} (evs : EnvVarSet V) (msg : String) :
    EnvVarSet V × Option GoErr :=
  ({ evs with output := evs.output ++ [msg] }, some (GoErr.msg msg))

/-- The name/value split of `parseOne`: scan for `'='` starting at index 1
(`// equals cannot be first`); on a hit, `name` is the text before it and
`value` the text after it; if no `'='` is found from index 1 on, both stay
`""`.  `pre` accumulates the scanned prefix. -/
def splitFrom (pre : List Char) : List Char → String × String
  | [] => ("", "")
  | c :: cs => if c = '=' then (String.mk pre, String.mk cs) else splitFrom (pre ++ [c]) cs

/-- See `splitFrom`; the first character is taken into the name without being
compared against `'='`. -/
def splitEnv (s : String) : String × String :=
  match s.data with
  | [] => ("", "")
  | c :: cs => splitFrom [c] cs

/-- `EnvVarSet.parseOne(envString)`: split the entry, silently skip it when
the derived name is not registered, otherwise run the record's `Value.Set`;
on failure report through `failf`, on success insert the record into
`actual`. -/
def EnvVarSet.parseOne {V : Type} [Inhabited V] (vset : V → String → V × Option GoErr)
    (evs : EnvVarSet V) (envString : String) : EnvVarSet V × Option GoErr :=
  match mapLookup evs.formal (splitEnv envString).1 with
  | none => (evs, none)
  | some envVar =>
    match vset (evs.heap.getD envVar.ref default) (splitEnv envString).2 with
    | (st, some e) =>
      EnvVarSet.failf { evs with heap := evs.heap.set envVar.ref st }
        ("invalid value " ++ goQuote (splitEnv envString).2 ++ " for env var " ++
          (splitEnv envString).1 ++ ": " ++ e.render)
    | (st, none) =>
      ({ evs with heap := evs.heap.set envVar.ref st,
                  actual := mapInsert evs.actual (splitEnv envString).1 envVar }, none)

/-- Result of `EnvVarSet.Parse`: normal return (`ok`/`err` carry what Go
returns), or process exit / panic under the corresponding policies; the
carried set is the state at that point. -/
inductive ParseOutcome (V : Type) where
  | ok (evs : EnvVarSet V) : ParseOutcome V
  | err (evs : EnvVarSet V) (e : GoErr) : ParseOutcome V
  | exit (evs : EnvVarSet V) (code : Nat) : ParseOutcome V
  | panicked (evs : EnvVarSet V) (e : GoErr) : ParseOutcome V
deriving DecidableEq, Repr

/-- The state carried by a `ParseOutcome`. -/
def ParseOutcome.state {V : Type} : ParseOutcome V → EnvVarSet V
  | .ok evs => evs
  | .err evs _ => evs
  | .exit evs _ => evs
  | .panicked evs _ => evs

/-- The entry loop of `EnvVarSet.Parse`: process each entry in input order;
on a `parseOne` error dispatch on the error-handling policy
(`ContinueOnError` returns the error, `ExitOnError` calls `os.Exit(2)`,
`PanicOnError` panics with the error). -/
def EnvVarSet.ParseLoop {V : Type} [Inhabited V] (vset : V → String → V × Option GoErr)
    (evs : EnvVarSet V) : List String → ParseOutcome V
  | [] => .ok evs
  | envString :: rest =>
    match evs.parseOne vset envString with
    | (evs1, none) => evs1.ParseLoop vset rest
    | (evs1, some e) =>
      match evs1.errorHandling with
      | .ContinueOnError => .err evs1 e
      | .ExitOnError => .exit evs1 2
      | .PanicOnError => .panicked evs1 e

/-- `EnvVarSet.Parse(environment)`: set `parsed` unconditionally, then run
the entry loop. -/
def EnvVarSet.Parse {V : Type} [Inhabited V] (vset : V → String → V × Option GoErr)
    (evs : EnvVarSet V) (environment : List String) : ParseOutcome V :=
  ParseLoop vset { evs with parsed := true } environment

/-- `sortEnvVars`: collect the record names out of the map, sort them
lexicographically, and read the records back in that order. -/
def sortEnvVars (m : List (String × EnvVar)) : List EnvVar :=
  (List.insertionSort (fun a b => a ≤ b) (m.map fun p => p.2.Name)).filterMap
    (fun n => mapLookup m n)

/-- `EnvVarSet.VisitAll(fn)`: the sequence of records passed to `fn`, i.e.
all of `formal` in sorted name order. -/
def EnvVarSet.VisitAll {V : Type} (evs : EnvVarSet V) : List EnvVar :=
  sortEnvVars evs.formal

/-- `EnvVarSet.Visit(fn)`: the sequence of records passed to `fn`, i.e. all
of `actual` in sorted name order. -/
def EnvVarSet.Visit {V : Type} (evs : EnvVarSet V) : List EnvVar :=
  sortEnvVars evs.actual

/-- `EnvVarSet.Lookup(name)`. -/
def EnvVarSet.Lookup {V : Type} (evs : EnvVarSet V) (name : String) : Option EnvVar :=
  mapLookup evs.formal name

/-- Specification-side definition (from the spec's words, for the refinement
claims about overflow): the mathematical value of the digit string of a
literal, digits interpreted in `base` with no width bound at all; `none` when
some character is not a digit of the base. -/
def litDigits (base : Nat) : List Char → Nat → Option Nat
  | [], n => some n
  | d :: ds, n =>
    match digitVal d with
    | none => none
    | some v => if base ≤ v then none else litDigits base ds (n * base + v)

/-- Specification-side definition: the mathematical value of an unsigned
numeric literal in the spec's lexical forms "decimal, `0x` hex, `0` octal
prefix" (no sign), with no width bound. -/
def uintLitVal (s : List Char) : Option Nat :=
  match s with
  | [] => none
  | c0 :: rest0 =>
    if c0 = '0' then
      match rest0 with
      | [] => some 0
      | c1 :: rest1 =>
        if c1 = 'x' ∨ c1 = 'X' then
          if rest1 = [] then none else litDigits 16 rest1 0
        else litDigits 8 (c1 :: rest1) 0
    else litDigits 10 s 0

/-- Specification-side definition: the mathematical value of a signed numeric
literal, "optional leading `-`" (or `+`) followed by an unsigned literal,
with no width bound. -/
def intLitVal (s : List Char) : Option Int :=
  match s with
  | [] => none
  | c :: rest =>
    if c = '+' then (uintLitVal rest).map (fun n => (n : Int))
    else if c = '-' then (uintLitVal rest).map (fun n => -(n : Int))
    else (uintLitVal s).map (fun n => (n : Int))

/-- `ChainOk vset evs env evs'`: processing the entries `env` in order from
state `evs`, every `parseOne` call returns without error and the final state
is `evs'`. -/
inductive ChainOk {V : Type} [Inhabited V] (vset : V → String → V × Option GoErr) :
    EnvVarSet V → List String → EnvVarSet V → Prop where
  | nil (evs : EnvVarSet V) : ChainOk vset evs [] evs
  | cons {evs evs' evs'' : EnvVarSet V} {e : String} {rest : List String} :
      evs.parseOne vset e = (evs', none) → ChainOk vset evs' rest evs'' →
      ChainOk vset evs (e :: rest) evs''

/-- `Reach vset evs ap`: the set state `evs` is reachable from a freshly
constructed set by a sequence of slot allocations, successful registrations
(`Var`), direct `Set` calls and `Parse` passes (a parse pass decomposes into
setting `parsed` followed by `parseOne` steps, in input order, stopping after
a failing one — see `EnvVarSet.Parse` and `reach_parse_state` below);
`ap` accumulates (newest first) the names for which a `Set` call or a parse
entry successfully applied a value. -/
inductive Reach {V : Type} [Inhabited V] (vset : V → String → V × Option GoErr) :
    EnvVarSet V → List String → Prop where
  | new (name : String) (eh : ErrorHandling) (heap0 : List V) :
      Reach vset { name := name, parsed := false, actual := [], formal := [],
                   errorHandling := eh, output := [], heap := heap0 } []
  | alloc {evs : EnvVarSet V} {ap : List String} (v : V) :
      Reach vset evs ap → Reach vset { evs with heap := evs.heap ++ [v] } ap
  | varReg {evs evs' : EnvVarSet V} {ap : List String} (r : Nat) (n : String) :
      Reach vset evs ap → evs.Var r n = .ok evs' → Reach vset evs' ap
  | setOk {evs evs' : EnvVarSet V} {ap : List String} (n v : String) :
      Reach vset evs ap → EnvVarSet.Set vset evs n v = (evs', none) →
      Reach vset evs' (n :: ap)
  | setErr {evs evs' : EnvVarSet V} {ap : List String} {e : GoErr} (n v : String) :
      Reach vset evs ap → EnvVarSet.Set vset evs n v = (evs', some e) →
      Reach vset evs' ap
  | markParsed {evs : EnvVarSet V} {ap : List String} :
      Reach vset evs ap → Reach vset { evs with parsed := true } ap
  | parseApplied {evs evs' : EnvVarSet V} {ap : List String} (entry : String) :
      Reach vset evs ap → evs.parseOne vset entry = (evs', none) →
      (mapLookup evs.formal (splitEnv entry).1).isSome →
      Reach vset evs' ((splitEnv entry).1 :: ap)
  | parseFailed {evs evs' : EnvVarSet V} {ap : List String} {e : GoErr} (entry : String) :
      Reach vset evs ap → evs.parseOne vset entry = (evs', some e) →
      Reach vset evs' ap

theorem mapLookup_mapInsert {α : Type} (m : List (String × α)) (k k' : String) (v : α) :
    mapLookup (mapInsert m k v) k' = if k = k' then some v else mapLookup m k' := by
  induction m with
  | nil => simp [mapInsert, mapLookup]
  | cons p rest ih =>
    obtain ⟨k0, v0⟩ := p
    by_cases h0 : k0 = k
    · subst h0
      simp only [mapInsert, if_pos rfl, mapLookup]
      by_cases h1 : k0 = k' <;> simp [h1]
    · simp only [mapInsert, if_neg h0, mapLookup]
      by_cases h1 : k0 = k'
      · subst h1
        have hne : ¬ k = k0 := fun h => h0 h.symm
        simp [hne]
      · simp [h1, ih]

theorem mapLookup_mem {α : Type} {m : List (String × α)} {k : String} {v : α}
    (h : mapLookup m k = some v) : (k, v) ∈ m := by
  induction m with
  | nil => simp [mapLookup] at h
  | cons p rest ih =>
    obtain ⟨k0, v0⟩ := p
    simp only [mapLookup] at h
    by_cases h0 : k0 = k
    · rw [if_pos h0] at h
      injection h with hv
      subst h0
      subst hv
      exact List.mem_cons_self _ _
    · rw [if_neg h0] at h
      exact List.mem_cons_of_mem _ (ih h)

theorem mapLookup_isSome_of_key_mem {α : Type} {m : List (String × α)} {k : String}
    (h : k ∈ m.map Prod.fst) : (mapLookup m k).isSome := by
  induction m with
  | nil => simp at h
  | cons p rest ih =>
    obtain ⟨k0, v0⟩ := p
    simp only [List.map_cons, List.mem_cons] at h
    by_cases h0 : k0 = k
    · simp [mapLookup, h0]
    · simp only [mapLookup, if_neg h0]
      rcases h with h | h
      · exact absurd h.symm h0
      · exact ih h

theorem mem_of_mapLookup_isSome {α : Type} {m : List (String × α)} {k : String}
    (h : (mapLookup m k).isSome) : k ∈ m.map Prod.fst := by
  induction m with
  | nil => simp [mapLookup] at h
  | cons p rest ih =>
    obtain ⟨k0, v0⟩ := p
    simp only [mapLookup] at h
    by_cases h0 : k0 = k
    · simp [h0]
    · rw [if_neg h0] at h
      simp [ih h]

theorem mapLookup_of_mem_nodup {α : Type} {m : List (String × α)} {k : String} {v : α}
    (hnd : (m.map Prod.fst).Nodup) (h : (k, v) ∈ m) : mapLookup m k = some v := by
  induction m with
  | nil => simp at h
  | cons p rest ih =>
    obtain ⟨k0, v0⟩ := p
    simp only [List.map_cons, List.nodup_cons] at hnd
    rcases List.mem_cons.mp h with h | h
    · obtain ⟨h1, h2⟩ := Prod.mk.inj h
      subst h1
      subst h2
      simp [mapLookup]
    · have hk0 : k0 ≠ k := by
        intro he
        subst he
        exact hnd.1 (List.mem_map.mpr ⟨(k0, v), h, rfl⟩)
      simp only [mapLookup, if_neg hk0]
      exact ih hnd.2 h

theorem mapLookup_eq_of_perm {α : Type} {m1 m2 : List (String × α)}
    (hnd : (m1.map Prod.fst).Nodup) (hp : List.Perm m1 m2) (k : String) :
    mapLookup m1 k = mapLookup m2 k := by
  have hnd2 : (m2.map Prod.fst).Nodup := ((hp.map Prod.fst).nodup_iff).mp hnd
  cases h1 : mapLookup m1 k with
  | some v => exact (mapLookup_of_mem_nodup hnd2 (hp.mem_iff.mp (mapLookup_mem h1))).symm
  | none =>
    cases h2 : mapLookup m2 k with
    | none => rfl
    | some v =>
      have hm : (k, v) ∈ m1 := hp.mem_iff.mpr (mapLookup_mem h2)
      rw [mapLookup_of_mem_nodup hnd hm] at h1
      exact Option.noConfusion h1

theorem parseOne_eq_unreg {V : Type} [Inhabited V] (vset : V → String → V × Option GoErr)
    (evs : EnvVarSet V) (entry : String)
    (h1 : mapLookup evs.formal (splitEnv entry).1 = none) :
    evs.parseOne vset entry = (evs, none) := by
  unfold EnvVarSet.parseOne
  rw [h1]

theorem parseOne_eq_ok {V : Type} [Inhabited V] {vset : V → String → V × Option GoErr}
    {evs : EnvVarSet V} {entry : String} {ev : EnvVar} {st : V}
    (h1 : mapLookup evs.formal (splitEnv entry).1 = some ev)
    (h2 : vset (evs.heap.getD ev.ref default) (splitEnv entry).2 = (st, none)) :
    evs.parseOne vset entry
      = ({ evs with heap := evs.heap.set ev.ref st,
                    actual := mapInsert evs.actual (splitEnv entry).1 ev }, none) := by
  unfold EnvVarSet.parseOne
  rw [h1]
  simp only []
  rw [h2]

theorem parseOne_eq_err {V : Type} [Inhabited V] {vset : V → String → V × Option GoErr}
    {evs : EnvVarSet V} {entry : String} {ev : EnvVar} {st : V} {e : GoErr}
    (h1 : mapLookup evs.formal (splitEnv entry).1 = some ev)
    (h2 : vset (evs.heap.getD ev.ref default) (splitEnv entry).2 = (st, some e)) :
    evs.parseOne vset entry
      = ({ evs with heap := evs.heap.set ev.ref st,
                    output := evs.output ++
                      ["invalid value " ++ goQuote (splitEnv entry).2 ++ " for env var " ++
                        (splitEnv entry).1 ++ ": " ++ e.render] },
         some (GoErr.msg ("invalid value " ++ goQuote (splitEnv entry).2 ++ " for env var " ++
               (splitEnv entry).1 ++ ": " ++ e.render))) := by
  unfold EnvVarSet.parseOne
  rw [h1]
  simp only []
  rw [h2]
  rfl

theorem Set_eq_unreg {V : Type} [Inhabited V] (vset : V → String → V × Option GoErr)
    (evs : EnvVarSet V) (name value : String)
    (h1 : mapLookup evs.formal name = none) :
    EnvVarSet.Set vset evs name value
      = (evs, some (GoErr.msg ("no such environment variable " ++ name))) := by
  unfold EnvVarSet.Set
  rw [h1]

theorem Set_eq_ok {V : Type} [Inhabited V] {vset : V → String → V × Option GoErr}
    {evs : EnvVarSet V} {name value : String} {ev : EnvVar} {st : V}
    (h1 : mapLookup evs.formal name = some ev)
    (h2 : vset (evs.heap.getD ev.ref default) value = (st, none)) :
    EnvVarSet.Set vset evs name value
      = ({ evs with heap := evs.heap.set ev.ref st,
                    actual := mapInsert evs.actual name ev }, none) := by
  unfold EnvVarSet.Set
  rw [h1]
  simp only []
  rw [h2]

theorem Set_eq_err {V : Type} [Inhabited V] {vset : V → String → V × Option GoErr}
    {evs : EnvVarSet V} {name value : String} {ev : EnvVar} {st : V} {e : GoErr}
    (h1 : mapLookup evs.formal name = some ev)
    (h2 : vset (evs.heap.getD ev.ref default) value = (st, some e)) :
    EnvVarSet.Set vset evs name value
      = ({ evs with heap := evs.heap.set ev.ref st }, some e) := by
  unfold EnvVarSet.Set
  rw [h1]
  simp only []
  rw [h2]

theorem Var_eq_fresh {V : Type} (evs : EnvVarSet V) (r : Nat) (n : String)
    (h1 : mapLookup evs.formal n = none) :
    evs.Var r n = .ok { evs with formal := mapInsert evs.formal n ⟨n, r⟩ } := by
  unfold EnvVarSet.Var
  rw [h1]

theorem Var_eq_dup {V : Type} (evs : EnvVarSet V) (r : Nat) (n : String) (ev : EnvVar)
    (h1 : mapLookup evs.formal n = some ev) :
    evs.Var r n
      = .panicked { evs with output := evs.output ++
            [if evs.name = "" then "EnvVar redefined: " ++ n
             else evs.name ++ " sets EnvVar redefined: " ++ n] }
          (if evs.name = "" then "EnvVar redefined: " ++ n
           else evs.name ++ " sets EnvVar redefined: " ++ n) := by
  unfold EnvVarSet.Var
  rw [h1]

theorem ParseLoop_nil {V : Type} [Inhabited V] (vset : V → String → V × Option GoErr)
    (evs : EnvVarSet V) : evs.ParseLoop vset [] = .ok evs := rfl

theorem ParseLoop_cons_ok {V : Type} [Inhabited V] {vset : V → String → V × Option GoErr}
    {evs evs1 : EnvVarSet V} {entry : String} (rest : List String)
    (h : evs.parseOne vset entry = (evs1, none)) :
    evs.ParseLoop vset (entry :: rest) = evs1.ParseLoop vset rest := by
  conv =>
    lhs
    rw [EnvVarSet.ParseLoop]
  rw [h]

theorem ParseLoop_cons_err {V : Type} [Inhabited V] {vset : V → String → V × Option GoErr}
    {evs evs1 : EnvVarSet V} {entry : String} {e : GoErr} (rest : List String)
    (h : evs.parseOne vset entry = (evs1, some e)) :
    evs.ParseLoop vset (entry :: rest)
      = match evs1.errorHandling with
        | .ContinueOnError => .err evs1 e
        | .ExitOnError => .exit evs1 2
        | .PanicOnError => .panicked evs1 e := by
  unfold EnvVarSet.ParseLoop
  rw [h]

theorem splitFrom_no_eq {cs : List Char} (h : '=' ∉ cs) : ∀ pre, splitFrom pre cs = ("", "") := by
  induction cs with
  | nil => intro pre; rfl
  | cons c cs ih =>
    intro pre
    have hc : ¬ (c = '=') := fun he => h (by rw [he]; exact List.mem_cons_self _ _)
    simp only [splitFrom, if_neg hc]
    exact ih (fun hm => h (List.mem_cons_of_mem _ hm)) (pre ++ [c])

theorem splitFrom_found {a : List Char} (h : '=' ∉ a) :
    ∀ pre b, splitFrom pre (a ++ '=' :: b) = (String.mk (pre ++ a), String.mk b) := by
  induction a with
  | nil =>
    intro pre b
    simp [splitFrom]
  | cons x a ih =>
    intro pre b
    have hx : ¬ (x = '=') := fun he => h (by rw [he]; exact List.mem_cons_self _ _)
    have step : splitFrom pre ((x :: a) ++ '=' :: b) = splitFrom (pre ++ [x]) (a ++ '=' :: b) := by
      simp only [List.cons_append, splitFrom, if_neg hx]
      rfl
    rw [step, ih (fun hm => h (List.mem_cons_of_mem _ hm)) (pre ++ [x]) b]
    simp

theorem parseOne_ok_inv {V : Type} [Inhabited V] {vset : V → String → V × Option GoErr}
    {evs evs' : EnvVarSet V} {entry : String}
    (h : evs.parseOne vset entry = (evs', none)) :
    (mapLookup evs.formal (splitEnv entry).1 = none ∧ evs' = evs) ∨
    (∃ ev st, mapLookup evs.formal (splitEnv entry).1 = some ev ∧
       vset (evs.heap.getD ev.ref default) (splitEnv entry).2 = (st, none) ∧
       evs' = { evs with heap := evs.heap.set ev.ref st,
                         actual := mapInsert evs.actual (splitEnv entry).1 ev }) := by
  cases h1 : mapLookup evs.formal (splitEnv entry).1 with
  | none =>
    rw [parseOne_eq_unreg vset evs entry h1] at h
    exact Or.inl ⟨rfl, (Prod.mk.inj h).1.symm⟩
  | some ev =>
    rcases h2 : vset (evs.heap.getD ev.ref default) (splitEnv entry).2 with ⟨st, e2⟩
    cases e2 with
    | none =>
      rw [parseOne_eq_ok h1 h2] at h
      exact Or.inr ⟨ev, st, rfl, h2, (Prod.mk.inj h).1.symm⟩
    | some e2 =>
      rw [parseOne_eq_err h1 h2] at h
      exact Option.noConfusion (Prod.mk.inj h).2

theorem parseOne_err_inv {V : Type} [Inhabited V] {vset : V → String → V × Option GoErr}
    {evs evs' : EnvVarSet V} {entry : String} {e : GoErr}
    (h : evs.parseOne vset entry = (evs', some e)) :
    evs'.actual = evs.actual ∧ evs'.formal = evs.formal ∧
    evs'.errorHandling = evs.errorHandling ∧ evs'.name = evs.name := by
  cases h1 : mapLookup evs.formal (splitEnv entry).1 with
  | none =>
    rw [parseOne_eq_unreg vset evs entry h1] at h
    exact Option.noConfusion (Prod.mk.inj h).2
  | some ev =>
    rcases h2 : vset (evs.heap.getD ev.ref default) (splitEnv entry).2 with ⟨st, e2⟩
    cases e2 with
    | none =>
      rw [parseOne_eq_ok h1 h2] at h
      exact Option.noConfusion (Prod.mk.inj h).2
    | some e2 =>
      rw [parseOne_eq_err h1 h2] at h
      rw [← (Prod.mk.inj h).1]
      exact ⟨rfl, rfl, rfl, rfl⟩

theorem Set_ok_inv {V : Type} [Inhabited V] {vset : V → String → V × Option GoErr}
    {evs evs' : EnvVarSet V} {name value : String}
    (h : EnvVarSet.Set vset evs name value = (evs', none)) :
    ∃ ev st, mapLookup evs.formal name = some ev ∧
      vset (evs.heap.getD ev.ref default) value = (st, none) ∧
      evs' = { evs with heap := evs.heap.set ev.ref st,
                        actual := mapInsert evs.actual name ev } := by
  cases h1 : mapLookup evs.formal name with
  | none =>
    rw [Set_eq_unreg vset evs name value h1] at h
    exact Option.noConfusion (Prod.mk.inj h).2
  | some ev =>
    rcases h2 : vset (evs.heap.getD ev.ref default) value with ⟨st, e2⟩
    cases e2 with
    | none =>
      rw [Set_eq_ok h1 h2] at h
      exact ⟨ev, st, rfl, h2, (Prod.mk.inj h).1.symm⟩
    | some e2 =>
      rw [Set_eq_err h1 h2] at h
      exact Option.noConfusion (Prod.mk.inj h).2

theorem Set_err_inv {V : Type} [Inhabited V] {vset : V → String → V × Option GoErr}
    {evs evs' : EnvVarSet V} {name value : String} {e : GoErr}
    (h : EnvVarSet.Set vset evs name value = (evs', some e)) :
    evs'.actual = evs.actual ∧ evs'.formal = evs.formal ∧
    evs'.errorHandling = evs.errorHandling := by
  cases h1 : mapLookup evs.formal name with
  | none =>
    rw [Set_eq_unreg vset evs name value h1] at h
    rw [← (Prod.mk.inj h).1]
    exact ⟨rfl, rfl, rfl⟩
  | some ev =>
    rcases h2 : vset (evs.heap.getD ev.ref default) value with ⟨st, e2⟩
    cases e2 with
    | none =>
      rw [Set_eq_ok h1 h2] at h
      exact Option.noConfusion (Prod.mk.inj h).2
    | some e2 =>
      rw [Set_eq_err h1 h2] at h
      rw [← (Prod.mk.inj h).1]
      exact ⟨rfl, rfl, rfl⟩

theorem Var_ok_inv {V : Type} {evs evs' : EnvVarSet V} {r : Nat} {n : String}
    (h : evs.Var r n = .ok evs') :
    mapLookup evs.formal n = none ∧
    evs' = { evs with formal := mapInsert evs.formal n ⟨n, r⟩ } := by
  cases h1 : mapLookup evs.formal n with
  | none =>
    rw [Var_eq_fresh evs r n h1] at h
    exact ⟨rfl, (VarResult.ok.inj h).symm⟩
  | some ev =>
    rw [Var_eq_dup evs r n ev h1] at h
    exact VarResult.noConfusion h

theorem ChainOk_errorHandling {V : Type} [Inhabited V] {vset : V → String → V × Option GoErr}
    {evs evs' : EnvVarSet V} {env : List String} (h : ChainOk vset evs env evs') :
    evs'.errorHandling = evs.errorHandling := by
  induction h with
  | nil => rfl
  | cons h1 _ ih =>
    rw [ih]
    rcases parseOne_ok_inv h1 with ⟨_, rfl⟩ | ⟨ev, st, _, _, rfl⟩
    · rfl
    · rfl

theorem ChainOk_ParseLoop {V : Type} [Inhabited V] {vset : V → String → V × Option GoErr}
    {evs evs' : EnvVarSet V} {env : List String} (h : ChainOk vset evs env evs') :
    evs.ParseLoop vset env = .ok evs' := by
  induction h with
  | nil => exact ParseLoop_nil _ _
  | cons h1 _ ih =>
    rw [ParseLoop_cons_ok _ h1]
    exact ih

theorem ChainOk_ParseLoop_err {V : Type} [Inhabited V] {vset : V → String → V × Option GoErr}
    {evs0 evs1 evs2 : EnvVarSet V} {pre : List String} {bad : String} {e : GoErr}
    (hc : ChainOk vset evs0 pre evs1) (hb : evs1.parseOne vset bad = (evs2, some e))
    (hpol : evs2.errorHandling = ErrorHandling.ContinueOnError) (post : List String) :
    evs0.ParseLoop vset (pre ++ bad :: post) = .err evs2 e := by
  induction hc with
  | nil =>
    rw [List.nil_append, ParseLoop_cons_err post hb, hpol]
  | cons h1 _ ih =>
    rw [List.cons_append, ParseLoop_cons_ok _ h1]
    exact ih hb

theorem invariant_insert {α : Type} {formal actual : List (String × α)} {ap : List String}
    {n : String} {ev : α} (hl : mapLookup formal n = some ev)
    (ih1 : ∀ n' ev', mapLookup actual n' = some ev' → mapLookup formal n' = some ev')
    (ih2 : ∀ n', (mapLookup actual n').isSome = true ↔ n' ∈ ap) :
    (∀ n' ev', mapLookup (mapInsert actual n ev) n' = some ev' →
       mapLookup formal n' = some ev') ∧
    (∀ n', (mapLookup (mapInsert actual n ev) n').isSome = true ↔ n' ∈ n :: ap) := by
  constructor
  · intro n' ev' ha
    rw [mapLookup_mapInsert] at ha
    by_cases he : n = n'
    · subst he
      rw [if_pos rfl] at ha
      injection ha with ha
      subst ha
      exact hl
    · rw [if_neg he] at ha
      exact ih1 n' ev' ha
  · intro n'
    rw [mapLookup_mapInsert]
    by_cases he : n = n'
    · subst he
      simp
    · rw [if_neg he, ih2 n']
      constructor
      · exact fun hm => List.mem_cons_of_mem _ hm
      · intro hm
        rcases List.mem_cons.mp hm with hh | hh
        · exact absurd hh.symm he
        · exact hh

theorem Reach_invariant {V : Type} [Inhabited V] {vset : V → String → V × Option GoErr}
    {evs : EnvVarSet V} {ap : List String} (h : Reach vset evs ap) :
    (∀ n ev, mapLookup evs.actual n = some ev → mapLookup evs.formal n = some ev) ∧
    (∀ n, (mapLookup evs.actual n).isSome = true ↔ n ∈ ap) := by
  induction h with
  | new name eh heap0 =>
    constructor
    · intro n ev h
      simp [mapLookup] at h
    · intro n
      simp [mapLookup]
  | alloc v _ ih => exact ih
  | varReg r n _ hv ih =>
    obtain ⟨hnone, rfl⟩ := Var_ok_inv hv
    constructor
    · intro n' ev' ha
      have hf := ih.1 n' ev' ha
      rw [mapLookup_mapInsert]
      by_cases he : n = n'
      · subst he
        rw [hnone] at hf
        exact Option.noConfusion hf
      · rw [if_neg he]
        exact hf
    · exact ih.2
  | setOk n v _ hs ih =>
    obtain ⟨ev, st, hl, hv2, rfl⟩ := Set_ok_inv hs
    exact invariant_insert hl ih.1 ih.2
  | setErr n v _ hs ih =>
    obtain ⟨ha, hf, _⟩ := Set_err_inv hs
    rw [ha, hf]
    exact ih
  | markParsed _ ih => exact ih
  | parseApplied entry _ hp hsome ih =>
    rcases parseOne_ok_inv hp with ⟨hnone, rfl⟩ | ⟨ev, st, hl, hv2, rfl⟩
    · rw [hnone] at hsome
      exact Bool.noConfusion hsome
    · exact invariant_insert hl ih.1 ih.2
  | parseFailed entry _ hp ih =>
    obtain ⟨ha, hf, _, _⟩ := parseOne_err_inv hp
    rw [ha, hf]
    exact ih

theorem ParseLoop_reach {V : Type} [Inhabited V] {vset : V → String → V × Option GoErr} :
    ∀ (env : List String) {evs : EnvVarSet V} {ap : List String}, Reach vset evs ap →
      ∃ ap', Reach vset ((evs.ParseLoop vset env).state) (ap' ++ ap) := by
  intro env
  induction env with
  | nil =>
    intro evs ap h
    rw [ParseLoop_nil]
    exact ⟨[], h⟩
  | cons entry rest ih =>
    intro evs ap h
    rcases he : evs.parseOne vset entry with ⟨evs1, e2⟩
    cases e2 with
    | none =>
      rw [ParseLoop_cons_ok rest he]
      rcases parseOne_ok_inv he with ⟨hnone, hev⟩ | ⟨ev, st, hl, hv2, hev⟩
      · subst hev
        exact ih h
      · have h1 : Reach vset evs1 ((splitEnv entry).1 :: ap) := by
          refine Reach.parseApplied entry h he ?_
          rw [hl]
          rfl
        obtain ⟨ap', h2⟩ := ih h1
        refine ⟨ap' ++ [(splitEnv entry).1], ?_⟩
        rw [List.append_assoc, List.singleton_append]
        exact h2
    | some e =>
      rw [ParseLoop_cons_err rest he]
      have h1 : Reach vset evs1 ap := Reach.parseFailed entry h he
      cases hh : evs1.errorHandling
      · exact ⟨[], h1⟩
      · exact ⟨[], h1⟩
      · exact ⟨[], h1⟩

/-- The `Value.Set` dispatch function of a set whose registered variables are
all of the boolean kind (used to instantiate the generic registry theorems at
concrete inputs). -/
def boolVSet : Bool → String → Bool × Option GoErr := fun b s => boolValueSet b s

/-- A concrete set with three boolean variables `A`, `B`, `C` bound to heap
slots 0-2 and the `ContinueOnError` policy. -/
def evC : EnvVarSet Bool :=
  { name := "", parsed := false, actual := [],
    formal := [("A", ⟨"A", 0⟩), ("B", ⟨"B", 1⟩), ("C", ⟨"C", 2⟩)],
    errorHandling := ErrorHandling.ContinueOnError, output := [],
    heap := [false, false, false] }

/-- C1: `Parse`'s per-entry split takes the text before the first `'='` at
index ≥ 1 as the name and the text after it as the value; a string with no
`'='` at index ≥ 1 (no `'='` at all, or only one at position 0, or the empty
string) yields `name = value = ""`; and any entry whose derived name is not
present in `formal` (in particular the empty name, whenever it is not
registered) is silently ignored: `parseOne` returns no error, mutates
nothing, and emits no output. -/
theorem claim_C1 {V : Type} [Inhabited V] (vset : V → String → V × Option GoErr)
    (evs : EnvVarSet V) (entry : String) :
    (∀ c a b, entry.data = c :: (a ++ '=' :: b) → '=' ∉ a →
       splitEnv entry = (String.mk (c :: a), String.mk b)) ∧
    ('=' ∉ entry.data.drop 1 → splitEnv entry = ("", "")) ∧
    (mapLookup evs.formal (splitEnv entry).1 = none →
       evs.parseOne vset entry = (evs, none)) := by
  refine ⟨?_, ?_, parseOne_eq_unreg vset evs entry⟩
  · intro c a b hdata hna
    unfold splitEnv
    rw [hdata]
    simp only []
    rw [splitFrom_found hna [c] b]
    simp
  · intro hno
    unfold splitEnv
    cases hd : entry.data with
    | nil => rfl
    | cons c cs =>
      rw [hd] at hno
      simp only [List.drop_succ_cons, List.drop_zero] at hno
      exact splitFrom_no_eq hno [c]

/-- Witness for C1 at concrete inputs: a normal entry splits at the first
`'='`, an entry without `'='` derives empty name and value, and an entry
whose name (`"FOO"`) is not registered in the (empty) formal map is ignored
with the state returned unchanged. -/
theorem claim_C1_witness :
    splitEnv "FOO=bar" = ("FOO", "bar") ∧ splitEnv "NOEQUALS" = ("", "") ∧
    (NewEnvVarSet Bool "x" ErrorHandling.ContinueOnError).parseOne boolVSet "FOO=bar"
      = (NewEnvVarSet Bool "x" ErrorHandling.ContinueOnError, none) := by
  refine ⟨?_, ?_, ?_⟩
  · exact (claim_C1 boolVSet (NewEnvVarSet Bool "x" ErrorHandling.ContinueOnError) "FOO=bar").1
      'F' ['O', 'O'] ['b', 'a', 'r'] (by decide) (by decide)
  · exact (claim_C1 boolVSet (NewEnvVarSet Bool "x" ErrorHandling.ContinueOnError) "NOEQUALS").2.1
      (by decide)
  · exact (claim_C1 boolVSet (NewEnvVarSet Bool "x" ErrorHandling.ContinueOnError) "FOO=bar").2.2
      rfl

/-- C2: with the `ContinueOnError` policy, `Parse` processes entries in input
order; after any error-free prefix, the first entry whose value conversion
fails makes `Parse` return that entry's error immediately, with the state
exactly as left by processing the prefix and the failing entry (so earlier
matching entries are already applied and the entries after the failing one
are never touched, whatever they are); and if every entry succeeds or is
ignored, `Parse` returns success. -/
theorem claim_C2 {V : Type} [Inhabited V] (vset : V → String → V × Option GoErr)
    (evs : EnvVarSet V) (hpol : evs.errorHandling = ErrorHandling.ContinueOnError) :
    (∀ pre bad post evs1 evs2 e,
       ChainOk vset { evs with parsed := true } pre evs1 →
       evs1.parseOne vset bad = (evs2, some e) →
       EnvVarSet.Parse vset evs (pre ++ bad :: post) = .err evs2 e) ∧
    (∀ env evsF, ChainOk vset { evs with parsed := true } env evsF →
       EnvVarSet.Parse vset evs env = .ok evsF) := by
  constructor
  · intro pre bad post evs1 evs2 e hc hb
    have h1 : evs1.errorHandling = ErrorHandling.ContinueOnError := by
      rw [ChainOk_errorHandling hc]
      exact hpol
    have h2 : evs2.errorHandling = ErrorHandling.ContinueOnError := by
      rw [(parseOne_err_inv hb).2.2.1]
      exact h1
    exact ChainOk_ParseLoop_err hc hb h2 post
  · intro env evsF hc
    exact ChainOk_ParseLoop hc

/-- Witness for C2: on the set `evC` (`A`, `B`, `C` boolean, ContinueOnError)
and the input `["A=1", "B=bad", "C=1"]`, `Parse` returns the error of the
`B` entry with the state reached after applying `A=1` and failing on `B=bad`
(slot `A` set, `A` in actual, `C` untouched). -/
theorem claim_C2_witness :
    EnvVarSet.Parse boolVSet evC ["A=1", "B=bad", "C=1"]
      = ParseOutcome.err
          ((({ evC with parsed := true }).parseOne boolVSet "A=1").1.parseOne
              boolVSet "B=bad").1
          (GoErr.msg
            "invalid value \"bad\" for env var B: strconv.ParseBool: parsing \"bad\": invalid syntax") := by
  refine (claim_C2 boolVSet evC rfl).1 ["A=1"] "B=bad" ["C=1"]
    (({ evC with parsed := true }).parseOne boolVSet "A=1").1
    ((({ evC with parsed := true }).parseOne boolVSet "A=1").1.parseOne boolVSet "B=bad").1
    _ ?_ ?_
  · exact ChainOk.cons (by decide) (ChainOk.nil _)
  · decide

/-- C3: along every sequence of `Var` / `Set` / `Parse` operations from a
fresh set (the reachable states, `Reach`), the names of `actual` map to
exactly the same records as in `formal` (hence `actual ⊆ formal` by name),
and a name is in `actual` iff some parse entry or direct `Set` successfully
applied a value for it (`ap` is the list of successfully applied names);
moreover every `Parse` pass leads again to a reachable state, extending the
applied names. -/
theorem claim_C3 {V : Type} [Inhabited V] (vset : V → String → V × Option GoErr)
    {evs : EnvVarSet V} {ap : List String} (h : Reach vset evs ap) :
    (∀ n ev, mapLookup evs.actual n = some ev → mapLookup evs.formal n = some ev) ∧
    (∀ n, (mapLookup evs.actual n).isSome = true ↔ n ∈ ap) ∧
    (∀ env, ∃ ap', Reach vset ((EnvVarSet.Parse vset evs env).state) (ap' ++ ap)) := by
  refine ⟨(Reach_invariant h).1, (Reach_invariant h).2, ?_⟩
  intro env
  exact ParseLoop_reach env (Reach.markParsed h)

/-- The states of a concrete `Var`-then-`Set` history, used to witness C3:
a fresh set, one allocated slot, variable `A` registered on it, then
`Set("A", "1")` applied. -/
def evR1 : EnvVarSet Bool :=
  { NewEnvVarSet Bool "r" ErrorHandling.ContinueOnError with heap := [false] }

/-- `evR1` after registering `A`. -/
def evR2 : EnvVarSet Bool := { evR1 with formal := mapInsert evR1.formal "A" ⟨"A", 0⟩ }

/-- `evR2` after `Set("A", "1")`. -/
def evR3 : EnvVarSet Bool := (EnvVarSet.Set boolVSet evR2 "A" "1").1

/-- Witness for C3: after the concrete history `new; alloc; Var A; Set A 1`,
the name `A` is in `actual` (iff it was applied) and its `actual` record is
the `formal` record. -/
theorem claim_C3_witness :
    ((mapLookup evR3.actual "A").isSome = true ↔ "A" ∈ ["A"]) ∧
    (mapLookup evR3.actual "A" = some ⟨"A", 0⟩ → mapLookup evR3.formal "A" = some ⟨"A", 0⟩) := by
  have hr : Reach boolVSet evR3 ["A"] :=
    Reach.setOk "A" "1"
      (Reach.varReg 0 "A"
        (Reach.alloc false (Reach.new "r" ErrorHandling.ContinueOnError []))
        rfl)
      rfl
  exact ⟨(claim_C3 boolVSet hr).2.1 "A", (claim_C3 boolVSet hr).1 "A" ⟨"A", 0⟩⟩

/-- C4: direct `Set` fails with the "no such environment variable" error when
the name is not in `formal`; otherwise it runs the record's `Value.Set`,
always rewriting the bound slot, propagating a conversion error unchanged,
and on success inserting the record into `actual`; and the whole result is
independent of the configured error-handling policy (it is always returned as
a plain result — `Set` never exits or panics). -/
theorem claim_C4 {V : Type} [Inhabited V] (vset : V → String → V × Option GoErr)
    (evs : EnvVarSet V) (name value : String) :
    (mapLookup evs.formal name = none →
       EnvVarSet.Set vset evs name value
         = (evs, some (GoErr.msg ("no such environment variable " ++ name)))) ∧
    (∀ ev st e, mapLookup evs.formal name = some ev →
       vset (evs.heap.getD ev.ref default) value = (st, some e) →
       EnvVarSet.Set vset evs name value
         = ({ evs with heap := evs.heap.set ev.ref st }, some e)) ∧
    (∀ ev st, mapLookup evs.formal name = some ev →
       vset (evs.heap.getD ev.ref default) value = (st, none) →
       EnvVarSet.Set vset evs name value
         = ({ evs with heap := evs.heap.set ev.ref st,
                       actual := mapInsert evs.actual name ev }, none)) ∧
    (∀ eh, EnvVarSet.Set vset { evs with errorHandling := eh } name value
        = ({ (EnvVarSet.Set vset evs name value).1 with errorHandling := eh },
           (EnvVarSet.Set vset evs name value).2)) := by
  refine ⟨Set_eq_unreg vset evs name value, fun ev st e h1 h2 => Set_eq_err h1 h2,
    fun ev st h1 h2 => Set_eq_ok h1 h2, ?_⟩
  intro eh
  cases h1 : mapLookup evs.formal name with
  | none =>
    rw [Set_eq_unreg vset { evs with errorHandling := eh } name value h1,
      Set_eq_unreg vset evs name value h1]
  | some ev =>
    rcases h2 : vset (evs.heap.getD ev.ref default) value with ⟨st, e2⟩
    cases e2 with
    | none =>
      have h1e : mapLookup ({ evs with errorHandling := eh } : EnvVarSet V).formal name
          = some ev := h1
      have h2e : vset (({ evs with errorHandling := eh } : EnvVarSet V).heap.getD
          ev.ref default) value = (st, none) := h2
      rw [Set_eq_ok h1e h2e, Set_eq_ok h1 h2]
    | some e2 =>
      have h1e : mapLookup ({ evs with errorHandling := eh } : EnvVarSet V).formal name
          = some ev := h1
      have h2e : vset (({ evs with errorHandling := eh } : EnvVarSet V).heap.getD
          ev.ref default) value = (st, some e2) := h2
      rw [Set_eq_err h1e h2e, Set_eq_err h1 h2]

/-- Witness for C4: on `evC`, setting the unknown name `NOPE` returns the
"no such environment variable" error as a plain result (here under the
`ExitOnError` policy as well), and a valid `Set` of `A` succeeds. -/
theorem claim_C4_witness :
    (EnvVarSet.Set boolVSet evC "NOPE" "1"
      = (evC, some (GoErr.msg "no such environment variable NOPE"))) ∧
    (EnvVarSet.Set boolVSet { evC with errorHandling := ErrorHandling.ExitOnError } "NOPE" "1"
      = ({ evC with errorHandling := ErrorHandling.ExitOnError },
         some (GoErr.msg "no such environment variable NOPE"))) ∧
    (EnvVarSet.Set boolVSet evC "A" "1"
      = ({ evC with heap := [true, false, false],
                    actual := [("A", ⟨"A", 0⟩)] }, none)) := by
  refine ⟨(claim_C4 boolVSet evC "NOPE" "1").1 rfl, ?_, ?_⟩
  · exact (claim_C4 boolVSet { evC with errorHandling := ErrorHandling.ExitOnError }
      "NOPE" "1").1 rfl
  · exact (claim_C4 boolVSet evC "A" "1").2.2.1 ⟨"A", 0⟩ true rfl rfl

/-- C5: registering a name already present in `formal` is fatal: `Var` prints
the redefinition message — prefixed with the set's name when it is non-empty —
to the output sink and panics with that message; it does not return (so no
result-style error reaches the caller) and `formal` is left unmodified. -/
theorem claim_C5 {V : Type} (evs : EnvVarSet V) (r : Nat) (name : String) (ev : EnvVar)
    (hm : mapLookup evs.formal name = some ev) :
    evs.Var r name
      = .panicked { evs with output := evs.output ++
            [if evs.name = "" then "EnvVar redefined: " ++ name
             else evs.name ++ " sets EnvVar redefined: " ++ name] }
          (if evs.name = "" then "EnvVar redefined: " ++ name
           else evs.name ++ " sets EnvVar redefined: " ++ name) :=
  Var_eq_dup evs r name ev hm

/-- Witness for C5: re-registering `A` on `evC` (whose display name is empty)
panics with the plain redefinition message, leaving `formal` as it was, and
on a named set the message is prefixed with the set's name. -/
theorem claim_C5_witness :
    (evC.Var 7 "A"
      = .panicked { evC with output := ["EnvVar redefined: A"] } "EnvVar redefined: A") ∧
    (({ evC with name := "myset" }).Var 7 "A"
      = .panicked { evC with name := "myset",
                             output := ["myset sets EnvVar redefined: A"] }
          "myset sets EnvVar redefined: A") := by
  constructor
  · exact claim_C5 evC 7 "A" ⟨"A", 0⟩ rfl
  · exact claim_C5 { evC with name := "myset" } 7 "A" ⟨"A", 0⟩ rfl

theorem map_names {m : List (String × EnvVar)} (hn : ∀ p ∈ m, p.2.Name = p.1) :
    (m.map fun p => p.2.Name) = m.map Prod.fst := by
  induction m with
  | nil => rfl
  | cons p rest ih =>
    simp only [List.map_cons]
    rw [hn p (List.mem_cons_self _ _), ih (fun q hq => hn q (List.mem_cons_of_mem _ hq))]

theorem filterMap_lookup_keys {m : List (String × EnvVar)}
    (hnd : (m.map Prod.fst).Nodup) :
    (m.map Prod.fst).filterMap (fun n => mapLookup m n) = m.map Prod.snd := by
  induction m with
  | nil => rfl
  | cons p rest ih =>
    obtain ⟨k, v⟩ := p
    simp only [List.map_cons, List.nodup_cons] at hnd
    have hself : mapLookup ((k, v) :: rest) k = some v := by
      simp [mapLookup]
    have htail : (rest.map Prod.fst).filterMap (fun n => mapLookup ((k, v) :: rest) n)
        = (rest.map Prod.fst).filterMap (fun n => mapLookup rest n) := by
      refine List.filterMap_congr ?_
      intro n hnk
      have hk : ¬ (k = n) := fun he => hnd.1 (he ▸ hnk)
      simp [mapLookup, hk]
    simp only [List.map_cons, List.filterMap_cons, hself, htail, ih hnd.2]

theorem map_name_filterMap_lookup {m : List (String × EnvVar)}
    (hn : ∀ p ∈ m, p.2.Name = p.1) :
    ∀ ks : List String, (∀ n, n ∈ ks → n ∈ m.map Prod.fst) →
      (ks.filterMap (fun n => mapLookup m n)).map EnvVar.Name = ks := by
  intro ks
  induction ks with
  | nil => intro _; rfl
  | cons n ks ih =>
    intro hmem
    have h1 : (mapLookup m n).isSome = true :=
      mapLookup_isSome_of_key_mem (hmem n (List.mem_cons_self _ _))
    obtain ⟨ev, hev⟩ := Option.isSome_iff_exists.mp h1
    have hname : ev.Name = n := hn (n, ev) (mapLookup_mem hev)
    simp only [List.filterMap_cons, hev, List.map_cons, hname]
    rw [ih (fun x hx => hmem x (List.mem_cons_of_mem _ hx))]

theorem sortEnvVars_perm {m : List (String × EnvVar)}
    (hnd : (m.map Prod.fst).Nodup) (hn : ∀ p ∈ m, p.2.Name = p.1) :
    (sortEnvVars m).Perm (m.map Prod.snd) := by
  unfold sortEnvVars
  rw [map_names hn]
  exact ((List.perm_insertionSort _ _).filterMap _).trans
    (filterMap_lookup_keys hnd ▸ List.Perm.refl _)

theorem sortEnvVars_map_name {m : List (String × EnvVar)}
    (hn : ∀ p ∈ m, p.2.Name = p.1) :
    (sortEnvVars m).map EnvVar.Name
      = List.insertionSort (fun a b => a ≤ b) (m.map Prod.fst) := by
  unfold sortEnvVars
  rw [map_names hn]
  exact map_name_filterMap_lookup hn _
    (fun n hn2 => (List.perm_insertionSort _ _).mem_iff.mp hn2)

theorem sortEnvVars_sorted {m : List (String × EnvVar)}
    (hnd : (m.map Prod.fst).Nodup) (hn : ∀ p ∈ m, p.2.Name = p.1) :
    ((sortEnvVars m).map EnvVar.Name).Sorted (· < ·) := by
  rw [sortEnvVars_map_name hn]
  exact (List.sorted_insertionSort _ _).lt_of_le
    ((List.perm_insertionSort _ _).nodup_iff.mpr hnd)

theorem sortEnvVars_perm_eq {m1 m2 : List (String × EnvVar)}
    (hnd1 : (m1.map Prod.fst).Nodup)
    (hn1 : ∀ p ∈ m1, p.2.Name = p.1) (hn2 : ∀ p ∈ m2, p.2.Name = p.1)
    (hp : m1.Perm m2) : sortEnvVars m1 = sortEnvVars m2 := by
  unfold sortEnvVars
  rw [map_names hn1, map_names hn2]
  have hkeys : (m1.map Prod.fst).Perm (m2.map Prod.fst) := hp.map _
  have hsorteq : List.insertionSort (fun a b => a ≤ b) (m1.map Prod.fst)
      = List.insertionSort (fun a b => a ≤ b) (m2.map Prod.fst) :=
    List.eq_of_perm_of_sorted
      ((List.perm_insertionSort _ _).trans (hkeys.trans (List.perm_insertionSort _ _).symm))
      (List.sorted_insertionSort _ _) (List.sorted_insertionSort _ _)
  rw [hsorteq]
  exact List.filterMap_congr (fun n _ => mapLookup_eq_of_perm hnd1 hp n)

/-- C6: on a set whose maps have unique keys matching the record names (as
every reachable set does), `VisitAll` passes to the observer exactly the
records of `formal` — once per record — and `Visit` exactly the records of
`actual`, both in strictly ascending lexicographic order of name; the output
depends only on the contents of the map, not on registration/assignment
order (permuted maps visit identically); and `Visit` on an empty `actual`
(as before any successful parse entry or `Set`) invokes the observer zero
times. -/
theorem claim_C6 {V : Type} (evs evs2 : EnvVarSet V)
    (hf : (evs.formal.map Prod.fst).Nodup) (hfn : ∀ p ∈ evs.formal, p.2.Name = p.1)
    (ha : (evs.actual.map Prod.fst).Nodup) (han : ∀ p ∈ evs.actual, p.2.Name = p.1) :
    (evs.VisitAll.Perm (evs.formal.map Prod.snd)) ∧
    ((evs.VisitAll.map EnvVar.Name).Sorted (· < ·)) ∧
    (evs.Visit.Perm (evs.actual.map Prod.snd)) ∧
    ((evs.Visit.map EnvVar.Name).Sorted (· < ·)) ∧
    (evs.actual = [] → evs.Visit = []) ∧
    ((∀ p ∈ evs2.formal, p.2.Name = p.1) → evs.formal.Perm evs2.formal →
       evs.VisitAll = evs2.VisitAll) := by
  refine ⟨sortEnvVars_perm hf hfn, sortEnvVars_sorted hf hfn,
    sortEnvVars_perm ha han, sortEnvVars_sorted ha han, ?_, ?_⟩
  · intro h0
    unfold EnvVarSet.Visit
    rw [h0]
    rfl
  · intro hn2 hp
    exact sortEnvVars_perm_eq hf hfn hn2 hp

/-- A set like `evC` but with `Z` and `A` registered in that order (`Z`
first), used to witness C6's order independence. -/
def evZA : EnvVarSet Bool :=
  { name := "", parsed := false, actual := [],
    formal := [("Z", ⟨"Z", 0⟩), ("A", ⟨"A", 1⟩)],
    errorHandling := ErrorHandling.ContinueOnError, output := [],
    heap := [false, false] }

/-- `evZA` with the registrations performed in the opposite order. -/
def evAZ : EnvVarSet Bool :=
  { evZA with formal := [("A", ⟨"A", 1⟩), ("Z", ⟨"Z", 0⟩)] }

/-- Witness for C6: registering `Z` then `A` visits in the order `A`, `Z`;
the visit order is the same for the opposite registration order; and `Visit`
of the never-assigned set is empty. -/
theorem claim_C6_witness :
    ((evZA.VisitAll.map EnvVar.Name).Sorted (· < ·)) ∧
    (evZA.VisitAll.Perm [⟨"Z", 0⟩, ⟨"A", 1⟩]) ∧
    (evZA.VisitAll = evAZ.VisitAll) ∧
    (evZA.Visit = []) := by
  have h := claim_C6 evZA evAZ (by decide) (by decide) (by decide) (by decide)
  exact ⟨h.2.1, h.1, h.2.2.2.2.2 (by decide) (by decide), h.2.2.2.2.1 rfl⟩

theorem puLoop_step {base cutoff maxVal : Nat} {d : Char} {ds : List Char} {n dv : Nat}
    (hd : digitVal d = some dv) (hdb : ¬ (base ≤ dv)) (hcut : ¬ (cutoff ≤ n)) :
    puLoop base cutoff maxVal (d :: ds) n =
      if (n * base % 2 ^ 64 + dv) % 2 ^ 64 < n * base % 2 ^ 64 ∨
         maxVal < (n * base % 2 ^ 64 + dv) % 2 ^ 64 then
        (maxVal, some StrconvErr.range)
      else puLoop base cutoff maxVal ds ((n * base % 2 ^ 64 + dv) % 2 ^ 64) := by
  simp only [puLoop, hd, if_neg hdb, if_neg hcut]

theorem puLoop_stepCut {base cutoff maxVal : Nat} {d : Char} {ds : List Char} {n dv : Nat}
    (hd : digitVal d = some dv) (hdb : ¬ (base ≤ dv)) (hcut : cutoff ≤ n) :
    puLoop base cutoff maxVal (d :: ds) n = (maxUint64, some StrconvErr.range) := by
  simp only [puLoop, hd, if_neg hdb, if_pos hcut]

theorem litDigits_cons_inv {base : Nat} {d : Char} {ds : List Char} {n v : Nat}
    (h : litDigits base (d :: ds) n = some v) :
    ∃ dv, digitVal d = some dv ∧ ¬ (base ≤ dv) ∧ litDigits base ds (n * base + dv) = some v := by
  unfold litDigits at h
  cases hd : digitVal d with
  | none =>
    rw [hd] at h
    exact Option.noConfusion h
  | some dv =>
    rw [hd] at h
    simp only [] at h
    by_cases hb : base ≤ dv
    · rw [if_pos hb] at h
      exact Option.noConfusion h
    · rw [if_neg hb] at h
      exact ⟨dv, rfl, hb, h⟩

theorem litDigits_le {base : Nat} (hb : 1 ≤ base) :
    ∀ {cs : List Char} {n v : Nat}, litDigits base cs n = some v → n ≤ v := by
  intro cs
  induction cs with
  | nil =>
    intro n v h
    unfold litDigits at h
    injection h with h
    omega
  | cons d ds ih =>
    intro n v h
    obtain ⟨dv, _, _, h3⟩ := litDigits_cons_inv h
    have h4 := ih h3
    have h5 : n ≤ n * base := Nat.le_mul_of_pos_right n (by omega)
    omega

theorem digitVal_lt (d : Char) {dv : Nat} (h : digitVal d = some dv) : dv < 36 := by
  have c0 : '0'.toNat = 48 := rfl
  have c9 : '9'.toNat = 57 := rfl
  have ca : 'a'.toNat = 97 := rfl
  have cz : 'z'.toNat = 122 := rfl
  have cA : 'A'.toNat = 65 := rfl
  have cZ : 'Z'.toNat = 90 := rfl
  unfold digitVal at h
  split_ifs at h with h1 h2 h3 <;> injection h with h <;> omega

theorem puLoop_refine {base maxVal : Nat} (hb2 : 2 ≤ base) (hb36 : base ≤ 36)
    (hmax : maxVal ≤ maxUint64) :
    ∀ (cs : List Char) (n v : Nat), n ≤ maxVal → litDigits base cs n = some v →
      (v ≤ maxVal → puLoop base (maxUint64 / base + 1) maxVal cs n = (v, none)) ∧
      (maxVal < v →
        ∃ m, puLoop base (maxUint64 / base + 1) maxVal cs n = (m, some StrconvErr.range) ∧
          maxVal ≤ m) := by
  have hM : maxUint64 = 2 ^ 64 - 1 := rfl
  intro cs
  induction cs with
  | nil =>
    intro n v hn h
    unfold litDigits at h
    injection h with h
    subst h
    exact ⟨fun _ => rfl, fun hlt => absurd hn (by omega)⟩
  | cons d ds ih =>
    intro n v hn h
    obtain ⟨dv, hd, hdb, h3⟩ := litDigits_cons_inv h
    have hdv36 : dv < 36 := digitVal_lt d hd
    have hdvb : dv < base := Nat.lt_of_not_le hdb
    have hv_ge : n * base + dv ≤ v := litDigits_le (by omega) h3
    by_cases hcut : maxUint64 / base + 1 ≤ n
    · have h1 : maxUint64 < (maxUint64 / base + 1) * base := by
        calc maxUint64 = base * (maxUint64 / base) + maxUint64 % base :=
              (Nat.div_add_mod _ _).symm
          _ < base * (maxUint64 / base) + base :=
              Nat.add_lt_add_left (Nat.mod_lt _ (by omega)) _
          _ = (maxUint64 / base + 1) * base := by ring
      have hbig : maxUint64 < n * base :=
        Nat.lt_of_lt_of_le h1 (Nat.mul_le_mul_right base hcut)
      constructor
      · intro hle
        omega
      · intro _
        exact ⟨maxUint64, puLoop_stepCut hd hdb hcut, hmax⟩
    · have hnb : n * base ≤ maxUint64 := by
        have h1 : n ≤ maxUint64 / base := by omega
        calc n * base ≤ maxUint64 / base * base := Nat.mul_le_mul_right base h1
          _ ≤ maxUint64 := Nat.div_mul_le_self _ _
      have hn2 : n * base % 2 ^ 64 = n * base := Nat.mod_eq_of_lt (by omega)
      rw [puLoop_step hd hdb hcut, hn2]
      by_cases hover : n * base + dv ≤ maxVal
      · have hn1 : (n * base + dv) % 2 ^ 64 = n * base + dv := Nat.mod_eq_of_lt (by omega)
        rw [hn1, if_neg (by omega : ¬ (n * base + dv < n * base ∨ maxVal < n * base + dv))]
        exact ih (n * base + dv) v hover h3
      · have hvbig : maxVal < v := by omega
        have hn1 : (n * base + dv) % 2 ^ 64 < n * base ∨ maxVal < (n * base + dv) % 2 ^ 64 := by
          by_cases hlt : n * base + dv < 2 ^ 64
          · rw [Nat.mod_eq_of_lt hlt]
            omega
          · rw [Nat.mod_eq_sub_mod (by omega), Nat.mod_eq_of_lt (by omega)]
            omega
        rw [if_pos hn1]
        exact ⟨fun hle => absurd hle (by omega), fun _ => ⟨maxVal, rfl, Nat.le_refl _⟩⟩

theorem runPU_refine {b maxVal : Nat} (hb2 : 2 ≤ b) (hb36 : b ≤ 36)
    (hmax : maxVal ≤ maxUint64) (s : String) {digits : List Char} {v : Nat}
    (h : litDigits b digits 0 = some v) :
    (v ≤ maxVal → runPU s maxVal b digits = (v, none)) ∧
    (maxVal < v →
       ∃ m, runPU s maxVal b digits = (m, some (GoErr.num "ParseUint" s StrconvErr.range)) ∧
         maxVal ≤ m) := by
  have hr := puLoop_refine hb2 hb36 hmax digits 0 v (Nat.zero_le _) h
  constructor
  · intro hle
    unfold runPU
    rw [hr.1 hle]
  · intro hlt
    obtain ⟨m, hm, hge⟩ := hr.2 hlt
    refine ⟨m, ?_, hge⟩
    unfold runPU
    rw [hm]

theorem ParseUint_eq_dec {intSize bitSize : Nat} {s : String} {c0 : Char} {rest0 : List Char}
    (hd : s.data = c0 :: rest0) (hbs : ¬ (bitSize = 0)) (h0 : ¬ (c0 = '0')) :
    ParseUint intSize s 0 bitSize = runPU s (2 ^ bitSize - 1) 10 s.data := by
  unfold ParseUint
  rw [hd]
  simp only [if_neg hbs]
  rw [if_neg (by simp : ¬ ((c0 :: rest0).length < 1)),
    if_neg (by decide : ¬ ((2 : Nat) ≤ 0 ∧ (0 : Nat) ≤ 36))]
  simp only [if_true]
  rw [if_neg h0]

theorem ParseUint_eq_zero {intSize bitSize : Nat} {s : String}
    (hd : s.data = ['0']) (hbs : ¬ (bitSize = 0)) :
    ParseUint intSize s 0 bitSize = runPU s (2 ^ bitSize - 1) 8 [] := by
  unfold ParseUint
  rw [hd]
  simp only [if_neg hbs]
  rw [if_neg (by simp : ¬ (('0' :: ([] : List Char)).length < 1)),
    if_neg (by decide : ¬ ((2 : Nat) ≤ 0 ∧ (0 : Nat) ≤ 36))]
  simp only [if_true]

theorem ParseUint_eq_hex {intSize bitSize : Nat} {s : String} {c1 : Char} {rest1 : List Char}
    (hd : s.data = '0' :: c1 :: rest1) (hbs : ¬ (bitSize = 0))
    (hx : c1 = 'x' ∨ c1 = 'X') (hne : ¬ (rest1 = [])) :
    ParseUint intSize s 0 bitSize = runPU s (2 ^ bitSize - 1) 16 rest1 := by
  have hlen : ¬ (('0' :: c1 :: rest1).length < 3) := by
    have h1 : rest1.length ≠ 0 := fun h => hne (List.length_eq_zero.mp h)
    simp only [List.length_cons]
    omega
  unfold ParseUint
  rw [hd]
  simp only [if_neg hbs]
  rw [if_neg (by simp : ¬ (('0' :: c1 :: rest1).length < 1)),
    if_neg (by decide : ¬ ((2 : Nat) ≤ 0 ∧ (0 : Nat) ≤ 36))]
  simp only [if_true]
  rw [if_pos hx, if_neg hlen]

theorem ParseUint_eq_oct {intSize bitSize : Nat} {s : String} {c1 : Char} {rest1 : List Char}
    (hd : s.data = '0' :: c1 :: rest1) (hbs : ¬ (bitSize = 0))
    (hx : ¬ (c1 = 'x' ∨ c1 = 'X')) :
    ParseUint intSize s 0 bitSize = runPU s (2 ^ bitSize - 1) 8 (c1 :: rest1) := by
  unfold ParseUint
  rw [hd]
  simp only [if_neg hbs]
  rw [if_neg (by simp : ¬ (('0' :: c1 :: rest1).length < 1)),
    if_neg (by decide : ¬ ((2 : Nat) ≤ 0 ∧ (0 : Nat) ≤ 36))]
  simp only [if_true]
  rw [if_neg hx]

theorem ParseUint_refine (intSize : Nat) (s : String) (bitSize : Nat) {v : Nat}
    (hv : uintLitVal s.data = some v) (hbs1 : 1 ≤ bitSize) (hbs64 : bitSize ≤ 64) :
    (v ≤ 2 ^ bitSize - 1 → ParseUint intSize s 0 bitSize = (v, none)) ∧
    (2 ^ bitSize - 1 < v →
       ∃ m, ParseUint intSize s 0 bitSize
           = (m, some (GoErr.num "ParseUint" s StrconvErr.range)) ∧ 2 ^ bitSize - 1 ≤ m) := by
  have hbs : ¬ (bitSize = 0) := by omega
  have hM : maxUint64 = 2 ^ 64 - 1 := rfl
  have hmax : 2 ^ bitSize - 1 ≤ maxUint64 := by
    have h1 : 2 ^ bitSize ≤ 2 ^ 64 := Nat.pow_le_pow_right (by omega) hbs64
    omega
  cases hd : s.data with
  | nil =>
    rw [hd] at hv
    exact Option.noConfusion hv
  | cons c0 rest0 =>
    rw [hd] at hv
    unfold uintLitVal at hv
    simp only [] at hv
    by_cases h0 : c0 = '0'
    · rw [if_pos h0] at hv
      cases rest0 with
      | nil =>
        simp only [] at hv
        injection hv with hv
        subst hv
        subst h0
        have h1 : (1 : Nat) ≤ 2 ^ bitSize - 1 := by
          have h2 : 2 ^ 1 ≤ 2 ^ bitSize := Nat.pow_le_pow_right (by omega) hbs1
          omega
        constructor
        · intro _
          rw [ParseUint_eq_zero hd hbs]
          rfl
        · intro hlt
          exact absurd hlt (by omega)
      | cons c1 rest1 =>
        simp only [] at hv
        by_cases hx : c1 = 'x' ∨ c1 = 'X'
        · rw [if_pos hx] at hv
          by_cases hne : rest1 = []
          · rw [if_pos hne] at hv
            exact Option.noConfusion hv
          · rw [if_neg hne] at hv
            subst h0
            rw [ParseUint_eq_hex hd hbs hx hne]
            exact runPU_refine (by omega) (by omega) hmax s hv
        · rw [if_neg hx] at hv
          subst h0
          rw [ParseUint_eq_oct hd hbs hx]
          exact runPU_refine (by omega) (by omega) hmax s hv
    · rw [if_neg h0] at hv
      rw [ParseUint_eq_dec hd hbs h0, hd]
      exact runPU_refine (by omega) (by omega) hmax s hv

theorem ParseInt_eq (intSize base bitSize : Nat) {s : String} {c : Char} {rest : List Char}
    (hd : s.data = c :: rest) :
    ParseInt intSize s base bitSize =
      match ParseUint intSize (String.mk (if c = '+' ∨ c = '-' then rest else c :: rest))
          base 64 with
      | (un, none) => piFinish s (c = '-') (if bitSize = 0 then intSize else bitSize) un
      | (un, some (GoErr.num _ _ e)) =>
        if e = StrconvErr.range then
          piFinish s (c = '-') (if bitSize = 0 then intSize else bitSize) un
        else (0, some (GoErr.num "ParseInt" s e))
      | (_, some (GoErr.msg m)) => (0, some (GoErr.msg m)) := by
  unfold ParseInt
  rw [hd]

theorem ParseInt_refine_core (intSize : Nat) (s : String) {bitSize u : Nat}
    {c : Char} {rest s2 : List Char} (hd : s.data = c :: rest)
    (hs2 : (if c = '+' ∨ c = '-' then rest else c :: rest) = s2)
    (hu : uintLitVal s2 = some u) (hbs1 : 1 ≤ bitSize) (hbs64 : bitSize ≤ 64)
    (hneg : ¬ (c = '-')) :
    (u < 2 ^ (bitSize - 1) → ParseInt intSize s 0 bitSize = ((u : Int), none)) ∧
    (2 ^ (bitSize - 1) ≤ u →
       ∃ cc, ParseInt intSize s 0 bitSize
           = (cc, some (GoErr.num "ParseInt" s StrconvErr.range))) := by
  have hbs : ¬ (bitSize = 0) := by omega
  have hc63 : (2 : Nat) ^ (bitSize - 1) ≤ 2 ^ 63 := Nat.pow_le_pow_right (by omega) (by omega)
  have hp : (2 : Nat) ^ 64 = 2 ^ 63 * 2 := by
    rw [show (64 : Nat) = 63 + 1 from rfl, Nat.pow_succ]
  have hPI := ParseInt_eq intSize 0 bitSize hd
  rw [hs2, if_neg hbs] at hPI
  have hu' : uintLitVal (String.mk s2).data = some u := hu
  have hPU := ParseUint_refine intSize (String.mk s2) 64 hu' (by omega) (by omega)
  by_cases hub : u ≤ 2 ^ 64 - 1
  · rw [hPU.1 hub] at hPI
    simp only [] at hPI
    constructor
    · intro hlt
      rw [hPI]
      unfold piFinish
      split_ifs with h1 h2
      · exact absurd h1.2 (by omega)
      · exact absurd h2.1 hneg
      · simp [hneg]
    · intro hge
      refine ⟨((2 ^ (bitSize - 1) : Nat) : Int) - 1, ?_⟩
      rw [hPI]
      unfold piFinish
      split_ifs with h1 h2
      · rfl
      · exact absurd h2.1 hneg
      · exact absurd ⟨hneg, hge⟩ h1
  · obtain ⟨m, hEq, hm⟩ := hPU.2 (by omega)
    rw [hEq] at hPI
    simp only [if_true] at hPI
    constructor
    · intro hlt
      exact absurd hlt (by omega)
    · intro _
      refine ⟨((2 ^ (bitSize - 1) : Nat) : Int) - 1, ?_⟩
      rw [hPI]
      unfold piFinish
      split_ifs with h1 h2
      · rfl
      · exact absurd h2.1 hneg
      · exact absurd ⟨hneg, by omega⟩ h1

theorem ParseInt_refine_neg_core (intSize : Nat) (s : String) {bitSize u : Nat}
    {rest : List Char} (hd : s.data = '-' :: rest)
    (hu : uintLitVal rest = some u) (hbs1 : 1 ≤ bitSize) (hbs64 : bitSize ≤ 64) :
    (u ≤ 2 ^ (bitSize - 1) → ParseInt intSize s 0 bitSize = (-(u : Int), none)) ∧
    (2 ^ (bitSize - 1) < u →
       ∃ cc, ParseInt intSize s 0 bitSize
           = (cc, some (GoErr.num "ParseInt" s StrconvErr.range))) := by
  have hbs : ¬ (bitSize = 0) := by omega
  have hc63 : (2 : Nat) ^ (bitSize - 1) ≤ 2 ^ 63 := Nat.pow_le_pow_right (by omega) (by omega)
  have hp : (2 : Nat) ^ 64 = 2 ^ 63 * 2 := by
    rw [show (64 : Nat) = 63 + 1 from rfl, Nat.pow_succ]
  have hPI := ParseInt_eq intSize 0 bitSize hd
  rw [if_pos (Or.inr rfl), if_neg hbs] at hPI
  have hu' : uintLitVal (String.mk rest).data = some u := hu
  have hPU := ParseUint_refine intSize (String.mk rest) 64 hu' (by omega) (by omega)
  constructor
  · intro hle
    rw [hPU.1 (by omega)] at hPI
    simp only [] at hPI
    rw [hPI]
    unfold piFinish
    split_ifs with h1 h2
    · exact absurd trivial h1.1
    · exact absurd h2.2 (by omega)
    · simp
  · intro hgt
    by_cases hub : u ≤ 2 ^ 64 - 1
    · rw [hPU.1 hub] at hPI
      simp only [] at hPI
      refine ⟨-((2 ^ (bitSize - 1) : Nat) : Int), ?_⟩
      rw [hPI]
      unfold piFinish
      split_ifs with h1 h2
      · exact absurd trivial h1.1
      · rfl
      · exact absurd ⟨by simp, hgt⟩ h2
    · obtain ⟨m, hEq, hm⟩ := hPU.2 (by omega)
      rw [hEq] at hPI
      simp only [if_true] at hPI
      refine ⟨-((2 ^ (bitSize - 1) : Nat) : Int), ?_⟩
      rw [hPI]
      unfold piFinish
      split_ifs with h1 h2
      · exact absurd trivial h1.1
      · rfl
      · exact absurd ⟨by simp, by omega⟩ h2

theorem ParseInt_refine (intSize : Nat) (s : String) (bitSize : Nat) {v : Int}
    (hv : intLitVal s.data = some v) (hbs1 : 1 ≤ bitSize) (hbs64 : bitSize ≤ 64) :
    (-((2 ^ (bitSize - 1) : Nat) : Int) ≤ v ∧ v < ((2 ^ (bitSize - 1) : Nat) : Int) →
       ParseInt intSize s 0 bitSize = (v, none)) ∧
    ((v < -((2 ^ (bitSize - 1) : Nat) : Int) ∨ ((2 ^ (bitSize - 1) : Nat) : Int) ≤ v) →
       ∃ cc, ParseInt intSize s 0 bitSize
           = (cc, some (GoErr.num "ParseInt" s StrconvErr.range))) := by
  have hN : 1 ≤ (2 : Nat) ^ (bitSize - 1) := Nat.one_le_pow _ _ (by omega)
  cases hd : s.data with
  | nil =>
    rw [hd] at hv
    exact Option.noConfusion hv
  | cons c rest =>
    rw [hd] at hv
    unfold intLitVal at hv
    simp only [] at hv
    by_cases hplus : c = '+'
    · rw [if_pos hplus] at hv
      cases huv : uintLitVal rest with
      | none =>
        rw [huv] at hv
        simp at hv
      | some u =>
        rw [huv] at hv
        simp at hv
        subst hv
        have hcore := ParseInt_refine_core intSize s hd
          (by rw [if_pos (Or.inl hplus)]) huv hbs1 hbs64 (by rw [hplus]; decide)
        constructor
        · intro hr
          exact hcore.1 (by omega)
        · intro hr
          exact hcore.2 (by omega)
    · rw [if_neg hplus] at hv
      by_cases hminus : c = '-'
      · subst hminus
        rw [if_pos rfl] at hv
        cases huv : uintLitVal rest with
        | none =>
          rw [huv] at hv
          simp at hv
        | some u =>
          rw [huv] at hv
          simp at hv
          subst hv
          have hcore := ParseInt_refine_neg_core intSize s hd huv hbs1 hbs64
          constructor
          · intro hr
            exact hcore.1 (by omega)
          · intro hr
            exact hcore.2 (by omega)
      · rw [if_neg hminus] at hv
        cases huv : uintLitVal (c :: rest) with
        | none =>
          rw [huv] at hv
          simp at hv
        | some u =>
          rw [huv] at hv
          simp at hv
          subst hv
          have hcore := ParseInt_refine_core intSize s hd
            (by rw [if_neg (fun h => h.elim hplus hminus)]) huv hbs1 hbs64 hminus
          constructor
          · intro hr
            exact hcore.1 (by omega)
          · intro hr
            exact hcore.2 (by omega)

/-- C7: the boolean kind's `setFromText` succeeds for exactly the twelve
tokens `1 0 t f T F true false TRUE FALSE True False`, storing native `true`
for the six tokens `1 t T true TRUE True` and native `false` for the six
tokens `0 f F false FALSE False`; every other input string yields a syntax
error. -/
theorem claim_C7 (b : Bool) (s : String) :
    ((s = "1" ∨ s = "t" ∨ s = "T" ∨ s = "true" ∨ s = "TRUE" ∨ s = "True") →
       boolValueSet b s = (true, none)) ∧
    ((s = "0" ∨ s = "f" ∨ s = "F" ∨ s = "false" ∨ s = "FALSE" ∨ s = "False") →
       boolValueSet b s = (false, none)) ∧
    (s ∉ (["1", "t", "T", "true", "TRUE", "True",
           "0", "f", "F", "false", "FALSE", "False"] : List String) →
       boolValueSet b s = (false, some (GoErr.num "ParseBool" s StrconvErr.syn))) := by
  refine ⟨?_, ?_, ?_⟩
  · intro h
    rcases h with h | h | h | h | h | h <;> subst h <;> rfl
  · intro h
    rcases h with h | h | h | h | h | h <;> subst h <;> rfl
  · intro h
    have h1 : ¬ (s = "1" ∨ s = "t" ∨ s = "T" ∨ s = "true" ∨ s = "TRUE" ∨ s = "True") := by
      intro hc
      exact h (by rcases hc with hc | hc | hc | hc | hc | hc <;> subst hc <;> decide)
    have h2 : ¬ (s = "0" ∨ s = "f" ∨ s = "F" ∨ s = "false" ∨ s = "FALSE" ∨ s = "False") := by
      intro hc
      exact h (by rcases hc with hc | hc | hc | hc | hc | hc <;> subst hc <;> decide)
    unfold boolValueSet ParseBool
    rw [if_neg h1, if_neg h2]

/-- Witness for C7 at concrete tokens: `"1"` parses to native `true`, `"F"`
to native `false`, and `"2"` (not among the twelve) fails with a syntax
error, overwriting the slot with `false`. -/
theorem claim_C7_witness :
    boolValueSet true "1" = (true, none) ∧
    boolValueSet true "F" = (false, none) ∧
    boolValueSet true "2" = (false, some (GoErr.num "ParseBool" "2" StrconvErr.syn)) := by
  refine ⟨(claim_C7 true "1").1 (Or.inl rfl), ?_, ?_⟩
  · exact (claim_C7 true "F").2.1 (Or.inr (Or.inr (Or.inl rfl)))
  · exact (claim_C7 true "2").2.2 (by decide)

/-- C8: for the four integer kinds, `setFromText` on a syntactically valid
numeric literal whose mathematical value (`intLitVal` / `uintLitVal`, the
spec-side definitions) exceeds the kind's representable range fails with a
range error instead of truncating or wrapping, and succeeds with the exact
value when the literal is in range; `intSize ∈ {32, 64}` is the platform
width used by the `int`/`uint` kinds, while the 64-bit kinds are fixed at
64 bits.  In particular the literal `"2147483648"` fails for the 32-bit-wide
signed kind and succeeds for the 64-bit signed kind. -/
theorem claim_C8 (intSize : Nat) (slot : Int) (uslot : Nat) (s : String) :
    (∀ v : Int, intLitVal s.data = some v → (intSize = 32 ∨ intSize = 64) →
       ((v < -((2 ^ (intSize - 1) : Nat) : Int) ∨ ((2 ^ (intSize - 1) : Nat) : Int) ≤ v) →
          ∃ c, intValueSet intSize slot s
              = (c, some (GoErr.num "ParseInt" s StrconvErr.range))) ∧
       (-((2 ^ (intSize - 1) : Nat) : Int) ≤ v ∧ v < ((2 ^ (intSize - 1) : Nat) : Int) →
          intValueSet intSize slot s = (v, none))) ∧
    (∀ v : Int, intLitVal s.data = some v →
       ((v < -((2 ^ 63 : Nat) : Int) ∨ ((2 ^ 63 : Nat) : Int) ≤ v) →
          ∃ c, int64ValueSet intSize slot s
              = (c, some (GoErr.num "ParseInt" s StrconvErr.range))) ∧
       (-((2 ^ 63 : Nat) : Int) ≤ v ∧ v < ((2 ^ 63 : Nat) : Int) →
          int64ValueSet intSize slot s = (v, none))) ∧
    (∀ u : Nat, uintLitVal s.data = some u → (intSize = 32 ∨ intSize = 64) →
       (2 ^ intSize - 1 < u →
          ∃ m, uintValueSet intSize uslot s
              = (m, some (GoErr.num "ParseUint" s StrconvErr.range))) ∧
       (u ≤ 2 ^ intSize - 1 → uintValueSet intSize uslot s = (u, none))) ∧
    (∀ u : Nat, uintLitVal s.data = some u →
       (2 ^ 64 - 1 < u →
          ∃ m, uint64ValueSet intSize uslot s
              = (m, some (GoErr.num "ParseUint" s StrconvErr.range))) ∧
       (u ≤ 2 ^ 64 - 1 → uint64ValueSet intSize uslot s = (u, none))) := by
  refine ⟨?_, ?_, ?_, ?_⟩
  · intro v hv hsz
    have h1 : 1 ≤ intSize := by rcases hsz with h | h <;> omega
    have h64 : intSize ≤ 64 := by rcases hsz with h | h <;> omega
    have hr := ParseInt_refine intSize s intSize hv h1 h64
    exact ⟨hr.2, hr.1⟩
  · intro v hv
    have hr := ParseInt_refine intSize s 64 hv (by omega) (by omega)
    exact ⟨hr.2, hr.1⟩
  · intro u hu hsz
    have h1 : 1 ≤ intSize := by rcases hsz with h | h <;> omega
    have h64 : intSize ≤ 64 := by rcases hsz with h | h <;> omega
    have hr := ParseUint_refine intSize s intSize hu h1 h64
    exact ⟨fun hgt => (hr.2 hgt).elim (fun m hm => ⟨m, hm.1⟩), hr.1⟩
  · intro u hu
    have hr := ParseUint_refine intSize s 64 hu (by omega) (by omega)
    exact ⟨fun hgt => (hr.2 hgt).elim (fun m hm => ⟨m, hm.1⟩), hr.1⟩

/-- Witness for C8: the literal `"2147483648"` (value `2 ^ 31`) fails with a
range error for the 32-bit-wide signed kind and parses exactly for the
64-bit signed kind; the literal `"4294967296"` (value `2 ^ 32`) fails with a
range error for a 32-bit-wide unsigned kind. -/
theorem claim_C8_witness :
    (∃ c, intValueSet 32 0 "2147483648"
        = (c, some (GoErr.num "ParseInt" "2147483648" StrconvErr.range))) ∧
    (int64ValueSet 64 0 "2147483648" = (2147483648, none)) ∧
    (∃ m, uintValueSet 32 0 "4294967296"
        = (m, some (GoErr.num "ParseUint" "4294967296" StrconvErr.range))) := by
  refine ⟨?_, ?_, ?_⟩
  · exact ((claim_C8 32 0 0 "2147483648").1 2147483648 (by decide) (Or.inl rfl)).1
      (Or.inr (by decide))
  · exact ((claim_C8 64 0 0 "2147483648").2.1 2147483648 (by decide)).2 (by decide)
  · exact ((claim_C8 32 0 0 "4294967296").2.2.1 4294967296 (by decide) (Or.inl rfl)).1
      (by decide)

/-- An `EnvVarSet` over platform-`int` slots with one variable `N` bound to
heap slot 0 (prior native value 5), used to witness C10. -/
def evI : EnvVarSet Int :=
  { name := "", parsed := false, actual := [], formal := [("N", ⟨"N", 0⟩)],
    errorHandling := ErrorHandling.ContinueOnError, output := [], heap := [5] }

/-- C10: a failing `setFromText` of the bool / int kinds still overwrites the
bound storage slot with the underlying parser's partial result before the
error is returned: an unparseable boolean token writes `false` (the prior
slot value `p` is lost), and the out-of-range literal `"2147483648"` at
32-bit width writes the clamped boundary `2147483647` over any prior `q`;
through the registry, `Set` then propagates the error while leaving `actual`
unchanged — but the heap slot is rewritten. -/
theorem claim_C10 (p : Bool) (q : Int) (s : String) (evs : EnvVarSet Int)
    (n : String) (ev : EnvVar) :
    ((ParseBool s).2.isSome = true → boolValueSet p s = (false, (ParseBool s).2)) ∧
    (intValueSet 32 q "2147483648"
       = (2147483647, some (GoErr.num "ParseInt" "2147483648" StrconvErr.range))) ∧
    (mapLookup evs.formal n = some ev →
       EnvVarSet.Set (intValueSet 32) evs n "2147483648"
         = ({ evs with heap := evs.heap.set ev.ref 2147483647 },
            some (GoErr.num "ParseInt" "2147483648" StrconvErr.range))) := by
  refine ⟨?_, rfl, ?_⟩
  · intro h
    unfold ParseBool at h
    unfold boolValueSet ParseBool
    split_ifs at h ⊢
    · exact Option.noConfusion (Option.isSome_iff_exists.mp h).choose_spec
    · exact Option.noConfusion (Option.isSome_iff_exists.mp h).choose_spec
    · rfl
  · intro h
    exact Set_eq_err h rfl

/-- Witness for C10: the bad boolean token `"nope"` turns a slot holding
`true` into `false` alongside the returned error, and `Set` of
`"2147483648"` on the 32-bit int variable `N` of `evI` (slot 5) clamps the
slot to `2147483647`, returns the range error, and leaves `actual` empty. -/
theorem claim_C10_witness :
    (boolValueSet true "nope"
       = (false, some (GoErr.num "ParseBool" "nope" StrconvErr.syn))) ∧
    (EnvVarSet.Set (intValueSet 32) evI "N" "2147483648"
       = ({ evI with heap := [2147483647] },
          some (GoErr.num "ParseInt" "2147483648" StrconvErr.range))) := by
  constructor
  · exact (claim_C10 true 0 "nope" evI "N" ⟨"N", 0⟩).1 rfl
  · exact (claim_C10 true 0 "nope" evI "N" ⟨"N", 0⟩).2.2 rfl
